import Mathlib

/-!
Verification development for the lazy-expression evaluation engine of a
persistent, chunked, compressed multidimensional array library
(python-blosc2).  The repository ships only documentation (an API
reference stub and a tutorial notebook on persistent reductions and
broadcasting); the engine itself is not among the provided sources, so
every definition below is modelled from the design specification
reconstructed from that documentation.  Machine integers are modelled as
unbounded `Int`/`Nat` (the documented scenarios use small exact integer
arithmetic), and fallible operations return `Except`/`Option`.
-/

/-- Modelled from the spec: the scalar element type of an array
(`dtype`).  The engine itself is missing from the sources; the spec only
requires a type that never changes over a handle's lifetime and supports
numeric promotion (widest of the two).  The documented scenarios use
integer arrays, so two representative dtypes suffice. -/
inductive Dtype where
  | int64
  | float64
deriving DecidableEq

/-- Modelled from the spec: "Result dtype follows standard numeric type
promotion (widest/most general of the two)". -/
def promote : Dtype → Dtype → Dtype
  | Dtype.float64, _ => Dtype.float64
  | _, Dtype.float64 => Dtype.float64
  | Dtype.int64, Dtype.int64 => Dtype.int64

/-- Modelled from the spec: combination of one aligned dimension pair
under the broadcasting rule: "for each aligned dimension pair (dL, dR),
the combined dimension is dL if dR == 1, dR if dL == 1, dL if dL == dR;
mismatched unequal dimensions with neither equal to 1 is a shape
error". -/
def broadcastDim (dL dR : Nat) : Option Nat :=
  if dR = 1 then some dL
  else if dL = 1 then some dR
  else if dL = dR then some dL
  else none

/-- Modelled from the spec: broadcasting of two shapes, working on
reversed shapes so that alignment starts "from the trailing (rightmost)
dimension"; "dimensions present in only one operand (shorter rank) are
treated as size 1 and simply adopt the other operand's size". -/
def broadcastRev : List Nat → List Nat → Option (List Nat)
  | [], r => some r
  | l, [] => some l
  | dL :: l, dR :: r =>
    match broadcastDim dL dR, broadcastRev l r with
    | some d, some rest => some (d :: rest)
    | _, _ => none

/-- Modelled from the spec: the broadcasting rule on shapes given in
leading-first order (`BroadcastShape`, computed on demand). -/
def broadcastShapes (s1 s2 : List Nat) : Option (List Nat) :=
  (broadcastRev s1.reverse s2.reverse).map List.reverse

/-- The dimension of a shape at distance `k` from the trailing end, with
missing dimensions (shorter rank) read as size 1.  This follows the
spec's words for the index-wise description of broadcasting and is used
to state the broadcasting claim independently of `broadcastShapes`. -/
def alignedDim (s : List Nat) (k : Nat) : Nat := s.reverse.getD k 1

/-- Compatibility of an aligned dimension pair, following the spec's
words: each aligned pair must be equal or contain a 1. -/
def specCompatible (s1 s2 : List Nat) : Bool :=
  (List.range (max s1.length s2.length)).all fun k =>
    alignedDim s1 k == 1 || alignedDim s2 k == 1 || alignedDim s1 k == alignedDim s2 k

/-- The combined dimension at trailing distance `k`, following the
spec's words: `dL` if `dR == 1`, `dR` if `dL == 1`, `dL` if `dL == dR`. -/
def specDim (s1 s2 : List Nat) (k : Nat) : Nat :=
  if alignedDim s2 k = 1 then alignedDim s1 k
  else if alignedDim s1 k = 1 then alignedDim s2 k
  else alignedDim s1 k

/-- The combined shape described by the spec, assembled index-wise from
the trailing end. -/
def specShape (s1 s2 : List Nat) : List Nat :=
  ((List.range (max s1.length s2.length)).map (specDim s1 s2)).reverse

/-- Modelled from the spec's error taxonomy (§7): the errors the missing
engine can surface from shape resolution and evaluation. -/
inductive EvalError where
  | ShapeMismatchError
  | UnknownOperandError (name : String)
  | UnknownFunctionError (name : String)
deriving DecidableEq

/-- Bounds check: `idx` is a valid (multidimensional) index into an
array of shape `s`. -/
def inBounds : List Nat → List Nat → Bool
  | [], [] => true
  | d :: s, i :: idx => decide (i < d) && inBounds s idx
  | _, _ => false

/-- Modelled from the spec: a stored n-dimensional array value.  The
missing storage engine keeps chunked compressed data; here the data is
modelled extensionally as the function from valid indices to element
values (machine integers as unbounded `Int`). -/
structure NDArray where
  shape : List Nat
  dtype : Dtype
  data : List Nat → Int

/-- Modelled from the spec: `full(shape, v)` creates an array of the
given shape where every element is `v` (the CLI surface's `full`). -/
def full (shape : List Nat) (v : Int) : NDArray :=
  ⟨shape, Dtype.int64, fun _ => v⟩

/-- All valid indices of a shape, outermost dimension first. -/
def allIndices : List Nat → List (List Nat)
  | [] => [[]]
  | d :: s => (List.range d).flatMap fun i => (allIndices s).map (i :: ·)

/-- Modelled from the spec: the full (all-axes) sum reduction of an
array, "reduce over all axes" collapsing to a scalar. -/
def sumAll (A : NDArray) : Int :=
  ((allIndices A.shape).map A.data).sum

/-- Modelled from the spec: unary elementwise operators. -/
inductive UOp where
  | neg
deriving DecidableEq

/-- Modelled from the spec: binary elementwise arithmetic operators. -/
inductive BOp where
  | add
  | sub
  | mul
deriving DecidableEq

/-- Modelled from the spec: reduction operators; the documented scenario
uses the all-axes `sum` reduction. -/
inductive ROp where
  | sum
deriving DecidableEq

/-- Modelled from the spec's data model: `ExpressionNode`, a "tagged
variant over Literal(scalar), OperandRef(name), UnaryOp(op, child),
BinaryOp(op, left, right), ReduceOp(op, child, axis?), Call(funcName,
args)", immutable once constructed.  The spec leaves the textual
grammar's function set open (§9); the fixed set modelled here consists
of unary named functions, so `Call` carries a single argument
expression. -/
inductive ExpressionNode where
  | Literal (v : Int)
  | OperandRef (name : String)
  | UnaryOp (op : UOp) (child : ExpressionNode)
  | BinaryOp (op : BOp) (left : ExpressionNode) (right : ExpressionNode)
  | ReduceOp (op : ROp) (child : ExpressionNode) (axis : Option Nat)
  | Call (funcName : String) (arg : ExpressionNode)
deriving DecidableEq

/-- The operand names referenced by a tree. -/
def refNames : ExpressionNode → List String
  | ExpressionNode.Literal _ => []
  | ExpressionNode.OperandRef n => [n]
  | ExpressionNode.UnaryOp _ c => refNames c
  | ExpressionNode.BinaryOp _ l r => refNames l ++ refNames r
  | ExpressionNode.ReduceOp _ c _ => refNames c
  | ExpressionNode.Call _ a => refNames a

/-- The fixed set of recognized named (non-reduction) functions; an
unrecognized Call name is an `UnknownFunctionError` (raised when
shape/dtype is queried, not at construction). -/
def knownFuns : List String := ["abs"]

/-- Modelled from the spec: the Metadata Resolver,
`resolveShape(node, bindings) -> (shape, dtype)`, a pure function of
current operand metadata with no data access.  `b` maps operand names to
the current (shape, dtype) metadata of the bound handle. -/
def resolveShape (b : String → Option (List Nat × Dtype)) :
    ExpressionNode → Except EvalError (List Nat × Dtype)
  | ExpressionNode.Literal _ => Except.ok ([], Dtype.int64)
  | ExpressionNode.OperandRef n =>
    match b n with
    | some sd => Except.ok sd
    | none => Except.error (EvalError.UnknownOperandError n)
  | ExpressionNode.UnaryOp _ c => resolveShape b c
  | ExpressionNode.BinaryOp _ l r => do
    let sl ← resolveShape b l
    let sr ← resolveShape b r
    match broadcastShapes sl.1 sr.1 with
    | some s => Except.ok (s, promote sl.2 sr.2)
    | none => Except.error EvalError.ShapeMismatchError
  | ExpressionNode.ReduceOp _ c ax => do
    let sc ← resolveShape b c
    match ax with
    | none => Except.ok ([], sc.2)
    | some k =>
      if k < sc.1.length then Except.ok (sc.1.eraseIdx k, sc.2)
      else Except.error EvalError.ShapeMismatchError
  | ExpressionNode.Call f a =>
    if f ∈ knownFuns then resolveShape b a
    else Except.error (EvalError.UnknownFunctionError f)

def uopFn : UOp → Int → Int
  | UOp.neg => fun x => -x

def bopFn : BOp → Int → Int → Int
  | BOp.add => fun x y => x + y
  | BOp.sub => fun x y => x - y
  | BOp.mul => fun x y => x * y

/-- Maps an output index back to an input index of an operand of shape
`sRev` (given reversed, trailing dimension first): "a size-1 dimension
maps every output chunk back to the same single input slice along that
axis", and leading output dimensions absent from the operand are
dropped. -/
def bcastIdxRev : List Nat → List Nat → List Nat
  | [], _ => []
  | d :: s, i :: idx => (if d = 1 then 0 else i) :: bcastIdxRev s idx
  | d :: s, [] => (if d = 1 then 0 else 0) :: bcastIdxRev s []

/-- Modelled from the spec: broadcasting index translation, aligning the
operand shape `s` with the output index `idx` from the trailing
dimension. -/
def bcastIdx (s idx : List Nat) : List Nat :=
  (bcastIdxRev s.reverse idx.reverse).reverse

/-- Modelled from the spec: insertion of a reduced-axis coordinate when
evaluating an axis reduction. -/
def insertAt (k i : Nat) (idx : List Nat) : List Nat :=
  idx.take k ++ i :: idx.drop k

/-- Modelled from the spec: the Evaluator, walking a bound tree and
producing the output array; `b` maps operand names to the current array
value of the bound handle.  (The spec's chunk-by-chunk schedule is a
memory-usage strategy; the result array it produces is what is modelled
here.) -/
def evalNode (b : String → Option NDArray) :
    ExpressionNode → Except EvalError NDArray
  | ExpressionNode.Literal v => Except.ok ⟨[], Dtype.int64, fun _ => v⟩
  | ExpressionNode.OperandRef n =>
    match b n with
    | some A => Except.ok A
    | none => Except.error (EvalError.UnknownOperandError n)
  | ExpressionNode.UnaryOp op c => do
    let A ← evalNode b c
    Except.ok ⟨A.shape, A.dtype, fun idx => uopFn op (A.data idx)⟩
  | ExpressionNode.BinaryOp op l r => do
    let A ← evalNode b l
    let B ← evalNode b r
    match broadcastShapes A.shape B.shape with
    | some out =>
      Except.ok ⟨out, promote A.dtype B.dtype,
        fun idx => bopFn op (A.data (bcastIdx A.shape idx)) (B.data (bcastIdx B.shape idx))⟩
    | none => Except.error EvalError.ShapeMismatchError
  | ExpressionNode.ReduceOp ROp.sum c ax => do
    let A ← evalNode b c
    match ax with
    | none => Except.ok ⟨[], A.dtype, fun _ => sumAll A⟩
    | some k =>
      if k < A.shape.length then
        Except.ok ⟨A.shape.eraseIdx k, A.dtype,
          fun idx => ((List.range (A.shape.getD k 0)).map fun i => A.data (insertAt k i idx)).sum⟩
      else Except.error EvalError.ShapeMismatchError
  | ExpressionNode.Call f a =>
    if f ∈ knownFuns then do
      let A ← evalNode b a
      Except.ok ⟨A.shape, A.dtype, fun idx => abs (A.data idx)⟩
    else Except.error (EvalError.UnknownFunctionError f)

/-- Tokens of the textual expression grammar. -/
inductive Tok where
  | ident (s : String)
  | num (n : Int)
  | plus
  | minus
  | star
  | dot
  | lparen
  | rparen
  | comma
deriving DecidableEq

def isIdentChar (c : Char) : Bool := c.isAlpha || c.isDigit || c = '_'

def digitsToNat (l : List Char) : Nat :=
  l.foldl (fun acc ch => acc * 10 + (ch.toNat - 48)) 0

/-- Modelled from the spec: the tokenizer of the textual expression
grammar (§4.3 leaves the full grammar open; this closed grammar covers
identifiers, integer literals, `+ - *`, parentheses, commas, and the
method-call dot).  `fuel` bounds recursion; `s.length` always
suffices since every step consumes at least one character. -/
def tokenize : Nat → List Char → Option (List Tok)
  | _, [] => some []
  | 0, _ :: _ => none
  | fuel + 1, c :: rest =>
    if c = ' ' then tokenize fuel rest
    else if c = '+' then (tokenize fuel rest).map (Tok.plus :: ·)
    else if c = '-' then (tokenize fuel rest).map (Tok.minus :: ·)
    else if c = '*' then (tokenize fuel rest).map (Tok.star :: ·)
    else if c = '.' then (tokenize fuel rest).map (Tok.dot :: ·)
    else if c = '(' then (tokenize fuel rest).map (Tok.lparen :: ·)
    else if c = ')' then (tokenize fuel rest).map (Tok.rparen :: ·)
    else if c = ',' then (tokenize fuel rest).map (Tok.comma :: ·)
    else if c.isAlpha then
      let body := rest.takeWhile isIdentChar
      (tokenize fuel (rest.dropWhile isIdentChar)).map
        (Tok.ident (String.mk (c :: body)) :: ·)
    else if c.isDigit then
      let body := rest.takeWhile Char.isDigit
      (tokenize fuel (rest.dropWhile Char.isDigit)).map
        (Tok.num (Int.ofNat (digitsToNat (c :: body))) :: ·)
    else none

/-- The reduction method names recognized by the textual grammar; a
reduction written as a string is parsed into a deferred `ReduceOp`
node. -/
def reduceNames : List String := ["sum"]

mutual

/-- Modelled from the spec: recursive-descent parsing of the textual
expression grammar, addition/subtraction level (lowest precedence). -/
def parseE : Nat → List Tok → Option (ExpressionNode × List Tok)
  | 0, _ => none
  | fuel + 1, ts => do
    let lt ← parseT fuel ts
    parseERest fuel lt.1 lt.2

/-- Left-associative chaining of `+` and `-`. -/
def parseERest : Nat → ExpressionNode → List Tok → Option (ExpressionNode × List Tok)
  | 0, _, _ => none
  | fuel + 1, acc, ts =>
    match ts with
    | Tok.plus :: rest => do
      let rt ← parseT fuel rest
      parseERest fuel (ExpressionNode.BinaryOp BOp.add acc rt.1) rt.2
    | Tok.minus :: rest => do
      let rt ← parseT fuel rest
      parseERest fuel (ExpressionNode.BinaryOp BOp.sub acc rt.1) rt.2
    | _ => some (acc, ts)

/-- Multiplication level (binds tighter than addition). -/
def parseT : Nat → List Tok → Option (ExpressionNode × List Tok)
  | 0, _ => none
  | fuel + 1, ts => do
    let lt ← parseF fuel ts
    parseTRest fuel lt.1 lt.2

/-- Left-associative chaining of `*`. -/
def parseTRest : Nat → ExpressionNode → List Tok → Option (ExpressionNode × List Tok)
  | 0, _, _ => none
  | fuel + 1, acc, ts =>
    match ts with
    | Tok.star :: rest => do
      let rt ← parseF fuel rest
      parseTRest fuel (ExpressionNode.BinaryOp BOp.mul acc rt.1) rt.2
    | _ => some (acc, ts)

/-- Factors: integer literals, operand references, function calls
`name(expr)`, and parenthesized expressions; each may be followed by
method-call postfixes. -/
def parseF : Nat → List Tok → Option (ExpressionNode × List Tok)
  | 0, _ => none
  | fuel + 1, ts =>
    match ts with
    | Tok.num n :: rest => parseM fuel (ExpressionNode.Literal n) rest
    | Tok.ident x :: Tok.lparen :: rest => do
      let at1 ← parseE fuel rest
      match at1.2 with
      | Tok.rparen :: rest2 => parseM fuel (ExpressionNode.Call x at1.1) rest2
      | _ => none
    | Tok.ident x :: rest => parseM fuel (ExpressionNode.OperandRef x) rest
    | Tok.lparen :: rest => do
      let at1 ← parseE fuel rest
      match at1.2 with
      | Tok.rparen :: rest2 => parseM fuel at1.1 rest2
      | _ => none
    | _ => none

/-- Method-call postfixes `e.name()`: a recognized reduction name
produces a deferred `ReduceOp` node (this is the textual-parse path:
the reduction is *not* evaluated at construction); any other name
produces a `Call` node (checked only when shape/dtype is queried). -/
def parseM : Nat → ExpressionNode → List Tok → Option (ExpressionNode × List Tok)
  | 0, _, _ => none
  | fuel + 1, e, ts =>
    match ts with
    | Tok.dot :: Tok.ident m :: Tok.lparen :: Tok.rparen :: rest =>
      if m ∈ reduceNames then parseM fuel (ExpressionNode.ReduceOp ROp.sum e none) rest
      else parseM fuel (ExpressionNode.Call m e) rest
    | _ => some (e, ts)

end

/-- Modelled from the spec: parsing a textual expression string into an
`ExpressionNode` tree.  Parsing is purely syntactic: no operand binding
is consulted and nothing is evaluated. -/
def parseString (s : String) : Option ExpressionNode := do
  let ts ← tokenize s.toList.length s.toList
  match parseE (4 * ts.length + 8) ts with
  | some (e, []) => some e
  | _ => none

/-- Modelled from the spec: the on-disk encoding of a persisted
expression: "(serialized ExpressionNode tree as a string or structured
form) + (references — e.g. paths — to each named operand's storage
location)".  The structured form is used here. -/
structure PersistedExpression where
  tree : ExpressionNode
  refs : List (String × String)
deriving DecidableEq

/-- Modelled from the spec: the persistent storage collaborator, a
key-value store from paths to current array state, plus the persisted
expression containers.  An operand handle is identified by its storage
path; reading through a handle "is always satisfied from whatever the
current persisted state is — no snapshot semantics". -/
structure Storage where
  arrays : List (String × NDArray)
  exprs : List (String × PersistedExpression)

/-- The metadata (shape and dtype) of every stored array: what the
Metadata Resolver is allowed to consult.  Chunk data is not part of
it. -/
def metaOf (st : Storage) : List (String × (List Nat × Dtype)) :=
  st.arrays.map fun pa => (pa.1, (pa.2.shape, pa.2.dtype))

/-- Sets (creates or replaces) the array stored at a path. -/
def setArray (p : String) (A : NDArray) (st : Storage) : Storage :=
  ⟨(p, A) :: st.arrays.filter fun pa => !(pa.1 == p), st.exprs⟩

/-- Modelled from the spec: `resize(newShape)` on a stored array; data
beyond the old shape is invalidated (modelled as 0 until written), data
within the old bounds is preserved, and the mutation is immediately
visible to every reference to this storage path. -/
def resizeArr (A : NDArray) (newShape : List Nat) : NDArray :=
  ⟨newShape, A.dtype, fun idx => if inBounds A.shape idx then A.data idx else 0⟩

/-- Modelled from the tutorial's `x[lo:hi] = v`: writes the constant `v`
into all positions whose leading coordinate lies in `[lo, hi)`. -/
def setRows (lo hi : Nat) (v : Int) (A : NDArray) : NDArray :=
  ⟨A.shape, A.dtype, fun idx => if lo ≤ idx.headD 0 ∧ idx.headD 0 < hi then v else A.data idx⟩

/-- Modelled from the spec: `LazyExpression` couples an immutable
`ExpressionNode` tree with a mapping from operand name to the bound
operand handle (identified by its storage path).  `shape` and `dtype`
are derived, never stored. -/
structure LazyExpression where
  tree : ExpressionNode
  operands : List (String × String)
deriving DecidableEq

/-- The metadata bindings of a lazy expression against the *current*
storage: each operand name resolves through its handle to the current
shape/dtype metadata.  No chunk data is reachable through this view. -/
def LazyExpression.metaB (L : LazyExpression) (st : Storage) :
    String → Option (List Nat × Dtype) :=
  fun n => (L.operands.lookup n).bind fun p => (metaOf st).lookup p

/-- The data bindings of a lazy expression against the current
storage. -/
def LazyExpression.dataB (L : LazyExpression) (st : Storage) :
    String → Option NDArray :=
  fun n => (L.operands.lookup n).bind fun p => st.arrays.lookup p

/-- Modelled from the spec: `shape()` delegates to the Metadata Resolver
against the current bindings, recomputed on every call (never
cached). -/
def LazyExpression.shape (L : LazyExpression) (st : Storage) :
    Except EvalError (List Nat) :=
  (resolveShape (L.metaB st) L.tree).map Prod.fst

/-- Modelled from the spec: `dtype()`, recomputed on every call like
`shape()`. -/
def LazyExpression.dtype (L : LazyExpression) (st : Storage) :
    Except EvalError Dtype :=
  (resolveShape (L.metaB st) L.tree).map Prod.snd

/-- Modelled from the spec: `compute()` triggers the Evaluator against
the current state of each operand handle. -/
def LazyExpression.compute (L : LazyExpression) (st : Storage) :
    Except EvalError NDArray :=
  evalNode (L.dataB st) L.tree

/-- Modelled from the spec: `blosc2.lazyexpr(expression, operands)`, the
textual construction entry point.  It parses the string into a tree and
binds the operand mapping; nothing is evaluated and no binding is
checked at construction time. -/
def lazyexpr (s : String) (ops : List (String × String)) : Option LazyExpression :=
  (parseString s).map fun t => ⟨t, ops⟩

/-- Modelled from the spec: `save(path)` serializes the tree plus each
bound operand's storage reference into the expression store. -/
def save (L : LazyExpression) (p : String) (st : Storage) : Storage :=
  ⟨st.arrays, (p, PersistedExpression.mk L.tree L.operands) :: st.exprs.filter fun pe => !(pe.1 == p)⟩

/-- Modelled from the spec: `blosc2.open(path)` deserializes the tree
and re-binds each operand name to a freshly opened handle at its
recorded storage reference; it "must fail with a clear error if any
referenced locator cannot be resolved to an existing array", and the
fresh handles reflect whatever the current on-disk state is. -/
def openExpr (p : String) (st : Storage) : Option LazyExpression := do
  let pe ← st.exprs.lookup p
  if pe.refs.all fun r => (st.arrays.lookup r.2).isSome then
    some ⟨pe.tree, pe.refs⟩
  else none

/-- Modelled from the spec: wrapping a bare operand handle as an
expression, the starting point of the host-language operator-overloading
construction path. -/
def opRef (name p : String) : LazyExpression :=
  ⟨ExpressionNode.OperandRef name, [(name, p)]⟩

/-- Modelled from the spec: operator application on expressions in the
host language, `L + R` (non-destructive, returns a new expression). -/
def LazyExpression.addE (L R : LazyExpression) : LazyExpression :=
  ⟨ExpressionNode.BinaryOp BOp.add L.tree R.tree, L.operands ++ R.operands⟩

/-- Modelled from the spec: operator application `L * R`. -/
def LazyExpression.mulE (L R : LazyExpression) : LazyExpression :=
  ⟨ExpressionNode.BinaryOp BOp.mul L.tree R.tree, L.operands ++ R.operands⟩

/-- Modelled from the spec: the host-language `sum()` reduction on an
expression; on this construction path "a reduction operator is evaluated
*immediately* and the result becomes a concrete scalar bound into the
tree as a Literal". -/
def LazyExpression.sumEager (L : LazyExpression) (st : Storage) :
    Except EvalError LazyExpression := do
  let A ← L.compute st
  Except.ok ⟨ExpressionNode.Literal (sumAll A), L.operands⟩

/-- The expression tree of the tutorial's string `a.sum() + b * c`:
a deferred `ReduceOp` for `a.sum()` plus the broadcast product
`b * c`. -/
def tutorialTree : ExpressionNode :=
  ExpressionNode.BinaryOp BOp.add
    (ExpressionNode.ReduceOp ROp.sum (ExpressionNode.OperandRef "a") none)
    (ExpressionNode.BinaryOp BOp.mul (ExpressionNode.OperandRef "b") (ExpressionNode.OperandRef "c"))

/-- Modelled from the tutorial: `a = blosc2.full((200, 300, 400), 1)`. -/
def aArr : NDArray := full [200, 300, 400] 1

/-- Modelled from the tutorial: `b = blosc2.full((200, 400), 2)`. -/
def bArr : NDArray := full [200, 400] 2

/-- Modelled from the tutorial: `c = blosc2.full(400, 3)`. -/
def cArr : NDArray := full [400] 3

/-- The tutorial's operand mapping: names `a`, `b`, `c` bound to the
stored arrays' paths. -/
def ops0 : List (String × String) := [("a", "a.b2nd"), ("b", "b.b2nd"), ("c", "c.b2nd")]

/-- The storage state after the tutorial creates its three arrays. -/
def st0 : Storage := ⟨[("a.b2nd", aArr), ("b.b2nd", bArr), ("c.b2nd", cArr)], []⟩

/-- The tutorial's lazy expression, as bound to the operand mapping. -/
def exprL : LazyExpression := ⟨tutorialTree, ops0⟩

/-- Modelled from the tutorial: `a.resize((300, 300, 400))` followed by
`a[200:300] = 3`. -/
def aArr2 : NDArray := setRows 200 300 3 (resizeArr aArr [300, 300, 400])

/-- Modelled from the tutorial: `b.resize((300, 400))` followed by
`b[200:300] = 5`. -/
def bArr2 : NDArray := setRows 200 300 5 (resizeArr bArr [300, 400])

/-- The storage state after the tutorial saves the expression at
`my_expr.b2nd` and then resizes and rewrites `a` and `b` in place. -/
def stMut : Storage :=
  setArray "a.b2nd" aArr2 (setArray "b.b2nd" bArr2 (save exprL "my_expr.b2nd" st0))

/-- The combined dimension rule stated over reversed (trailing-first)
shape lists, used to relate `broadcastRev` to the index-wise spec
description. -/
def specDimRev (l r : List Nat) (k : Nat) : Nat :=
  if r.getD k 1 = 1 then l.getD k 1
  else if l.getD k 1 = 1 then r.getD k 1
  else l.getD k 1

/-- Compatibility over reversed shape lists at all trailing positions
(positions beyond both ranks are trivially compatible since both read as
size 1). -/
def compatRev (l r : List Nat) : Prop :=
  ∀ k, l.getD k 1 = 1 ∨ r.getD k 1 = 1 ∨ l.getD k 1 = r.getD k 1

/-- Modelled from the spec (schunk reference): `vlmeta`, the accessor
for the variable-length metalayers of a super-chunk.  The storage engine
is not among the sources; the accessor "inherits from MutableMapping"
and "behaves very similarly to a dictionary".  Modelled as an
association list with at most one entry per key. -/
structure VlMeta (α : Type) where
  entries : List (String × α)

/-- Modelled from the spec: `schunk.vlmeta[k] = v` appends or replaces
the variable-length metalayer named `k`. -/
def VlMeta.set {α : Type} (m : VlMeta α) (k : String) (v : α) : VlMeta α :=
  if (m.entries.lookup k).isSome
  then ⟨m.entries.map fun p => if p.1 = k then (k, v) else p⟩
  else ⟨m.entries ++ [(k, v)]⟩

/-- Modelled from the spec: `value = schunk.vlmeta[k]` retrieves a
stored metalayer. -/
def VlMeta.get {α : Type} (m : VlMeta α) (k : String) : Option α :=
  m.entries.lookup k

/-- Modelled from the spec: `del schunk.vlmeta[k]` removes a stored
metalayer. -/
def VlMeta.del {α : Type} (m : VlMeta α) (k : String) : VlMeta α :=
  ⟨m.entries.filter fun p => !(p.1 == k)⟩

/-- Modelled from the spec: `getall()` "returns all the variable length
metalayers as a dictionary". -/
def VlMeta.getall {α : Type} (m : VlMeta α) : List (String × α) :=
  m.entries

/-- A binding environment holding exactly two operand handles, with
metadata `(s1, d1)` under name `L` and `(s2, d2)` under name `R`. -/
def twoOperands (s1 : List Nat) (d1 : Dtype) (s2 : List Nat) (d2 : Dtype) :
    String → Option (List Nat × Dtype) :=
  fun n => if n = "L" then some (s1, d1) else if n = "R" then some (s2, d2) else none

/-- A storage state with the same array metadata as `st0` (same shapes
and dtypes at the same paths) but entirely different chunk data, used to
exhibit that shape/dtype queries never consult data. -/
def st0Alt : Storage :=
  ⟨[("a.b2nd", full [200, 300, 400] 7), ("b.b2nd", full [200, 400] 8),
    ("c.b2nd", full [400] 9)], []⟩

theorem sum_map_const {α : Type} (l : List α) (v : Int) :
    (l.map fun _ => v).sum = l.length * v := by
  induction l with
  | nil => simp
  | cons a l ih => simp [ih]; ring

theorem sum_map_const_nat {α : Type} (l : List α) (v : Nat) :
    (l.map fun _ => v).sum = l.length * v := by
  induction l with
  | nil => simp
  | cons a l ih => simp [ih]; ring

theorem length_allIndices (s : List Nat) : (allIndices s).length = s.prod := by
  induction s with
  | nil => simp [allIndices]
  | cons d s ih =>
    simp only [allIndices, List.length_flatMap, List.prod_cons, Function.comp_def,
      List.length_map, ih]
    rw [sum_map_const_nat, List.length_range]

theorem sum_allIndices_cons (d : Nat) (s : List Nat) (f : List Nat → Int) :
    ((allIndices (d :: s)).map f).sum
      = ((List.range d).map fun i => ((allIndices s).map fun t => f (i :: t)).sum).sum := by
  simp only [allIndices, List.flatMap_def, List.map_flatten, List.sum_flatten,
    List.map_map, Function.comp_def]

theorem mem_allIndices (s idx : List Nat) :
    idx ∈ allIndices s ↔ inBounds s idx = true := by
  induction s generalizing idx with
  | nil =>
    cases idx with
    | nil => simp [allIndices, inBounds]
    | cons i t => simp [allIndices, inBounds]
  | cons d s ih =>
    cases idx with
    | nil => simp [allIndices, inBounds]
    | cons i t =>
      simp only [allIndices, List.mem_flatMap, List.mem_map, List.mem_range, inBounds]
      constructor
      · rintro ⟨j, hj, u, hu, hequ⟩
        injection hequ with h1 h2
        subst h1; subst h2
        simp [hj, (ih u).mp hu]
      · intro h
        have h1 : i < d := by
          by_contra hc
          simp [hc] at h
        have h2 : inBounds s t = true := by
          by_contra hc
          simp [hc] at h
        exact ⟨i, h1, t, (ih t).mpr h2, rfl⟩

theorem sumAll_full (s : List Nat) (v : Int) :
    sumAll (full s v) = (s.prod : Int) * v := by
  show ((allIndices s).map fun _ => v).sum = (s.prod : Int) * v
  rw [sum_map_const, length_allIndices]

theorem sum_range_split (a b : Nat) (f : Nat → Int) (v w : Int)
    (hlow : ∀ i, i < a → f i = v) (hhigh : ∀ i, a ≤ i → i < a + b → f i = w) :
    ((List.range (a + b)).map f).sum = a * v + b * w := by
  induction b with
  | zero =>
    rw [Nat.add_zero]
    have h : (List.range a).map f = (List.range a).map fun _ => v :=
      List.map_congr_left fun i hi => hlow i (List.mem_range.mp hi)
    rw [h, sum_map_const, List.length_range]
    ring
  | succ b ih =>
    rw [show a + (b + 1) = (a + b) + 1 by omega, List.range_succ, List.map_append,
      List.sum_append]
    rw [ih fun i h1 h2 => hhigh i h1 (by omega)]
    have h : f (a + b) = w := hhigh (a + b) (by omega) (by omega)
    simp [h]
    ring

theorem inBounds3 {d1 d2 d3 : Nat} {idx : List Nat} (h : inBounds [d1, d2, d3] idx = true) :
    ∃ i j k, idx = [i, j, k] ∧ i < d1 ∧ j < d2 ∧ k < d3 := by
  match idx with
  | [] => simp [inBounds] at h
  | [i] => simp [inBounds] at h
  | [i, j] => simp [inBounds] at h
  | i :: j :: k :: rest =>
    cases rest with
    | nil =>
      simp [inBounds] at h
      exact ⟨i, j, k, rfl, h.1, h.2.1, h.2.2⟩
    | cons x xs => simp [inBounds] at h

/-- The total sum of the tutorial's array `a` after the resize to
(300, 300, 400) and the write `a[200:300] = 3`: the original
200·300·400 ones plus 100·300·400 threes, 60000000 in total. -/
theorem sumAll_aArr2 : sumAll aArr2 = 60000000 := by
  have hshape : aArr2.shape = [300, 300, 400] := rfl
  show ((allIndices aArr2.shape).map aArr2.data).sum = 60000000
  rw [hshape]
  have hcong : (allIndices [300, 300, 400]).map aArr2.data
      = (allIndices [300, 300, 400]).map fun idx => if 200 ≤ idx.headD 0 then (3 : Int) else 1 := by
    apply List.map_congr_left
    intro idx hmem
    rw [mem_allIndices] at hmem
    obtain ⟨i, j, k, rfl, hi, hj, hk⟩ := inBounds3 hmem
    show aArr2.data [i, j, k] = if 200 ≤ i then (3 : Int) else 1
    by_cases hcase : 200 ≤ i
    · simp [aArr2, setRows, hcase, hi]
    · have hilt : i < 200 := by omega
      simp [aArr2, setRows, resizeArr, aArr, full, inBounds, hcase, hilt, hj, hk]
  rw [hcong, sum_allIndices_cons]
  have hinner : ∀ i : Nat,
      ((allIndices [300, 400]).map fun t =>
        if 200 ≤ (i :: t).headD 0 then (3 : Int) else 1).sum
      = (if 200 ≤ i then (3 : Int) else 1) * 120000 := by
    intro i
    have h : ((allIndices [300, 400]).map fun t =>
        if 200 ≤ (i :: t).headD 0 then (3 : Int) else 1)
        = (allIndices [300, 400]).map fun _ => if 200 ≤ i then (3 : Int) else 1 := rfl
    rw [h, sum_map_const, length_allIndices]
    norm_num [mul_comm]
  have hmapeq : ((List.range 300).map fun i =>
      ((allIndices [300, 400]).map fun t =>
        if 200 ≤ (i :: t).headD 0 then (3 : Int) else 1).sum)
      = (List.range 300).map fun i => (if 200 ≤ i then (3 : Int) else 1) * 120000 :=
    List.map_congr_left fun i _ => hinner i
  rw [hmapeq]
  rw [show (300 : Nat) = 200 + 100 by norm_num]
  rw [sum_range_split 200 100 _ 120000 360000
    (fun i hlt => by rw [if_neg (by omega)]; norm_num)
    (fun i hge _ => by rw [if_pos hge]; norm_num)]
  norm_num

theorem map_getD_range (r : List Nat) :
    (List.range r.length).map (fun k => r.getD k 1) = r := by
  induction r with
  | nil => rfl
  | cons a t ih =>
    rw [List.length_cons, List.range_succ_eq_map t.length, List.map_cons, List.map_map]
    have h : ((fun k => (a :: t).getD k 1) ∘ Nat.succ) = fun k => t.getD k 1 := by
      funext k
      simp [Function.comp, List.getD_cons_succ]
    rw [h, ih, List.getD_cons_zero]

theorem broadcastRev_of_compat (l r : List Nat) (h : compatRev l r) :
    broadcastRev l r
      = some ((List.range (max l.length r.length)).map (specDimRev l r)) := by
  induction l generalizing r with
  | nil =>
    cases r with
    | nil => rfl
    | cons dR r =>
      show some (dR :: r) = _
      simp only [List.length_nil, Nat.zero_max]
      have hd : ∀ k, specDimRev [] (dR :: r) k = (dR :: r).getD k 1 := by
        intro k
        unfold specDimRev
        by_cases hone : (dR :: r).getD k 1 = 1
        · rw [if_pos hone, hone]
          simp [List.getD]
        · rw [if_neg hone, if_pos (show List.getD [] k 1 = 1 by simp [List.getD])]
      have hmap : (List.range (dR :: r).length).map (specDimRev [] (dR :: r))
          = (List.range (dR :: r).length).map fun k => (dR :: r).getD k 1 :=
        List.map_congr_left fun k _ => hd k
      rw [hmap, map_getD_range]
  | cons dL l ih =>
    cases r with
    | nil =>
      show some (dL :: l) = _
      simp only [List.length_nil, Nat.max_zero]
      have hd : ∀ k, specDimRev (dL :: l) [] k = (dL :: l).getD k 1 := by
        intro k
        unfold specDimRev
        simp [List.getD]
      have hmap : (List.range (dL :: l).length).map (specDimRev (dL :: l) [])
          = (List.range (dL :: l).length).map fun k => (dL :: l).getD k 1 :=
        List.map_congr_left fun k _ => hd k
      rw [hmap, map_getD_range]
    | cons dR r =>
      have h0 := h 0
      simp only [List.getD_cons_zero] at h0
      have htail : compatRev l r := by
        intro k
        have hk := h (k + 1)
        simpa [List.getD_cons_succ] using hk
      have hdim : broadcastDim dL dR = some (specDimRev (dL :: l) (dR :: r) 0) := by
        unfold broadcastDim specDimRev
        simp only [List.getD_cons_zero]
        rcases h0 with h0 | h0 | h0
        · by_cases hr : dR = 1 <;> simp [h0, hr]
        · simp [h0]
        · by_cases hr : dR = 1 <;> by_cases hl : dL = 1 <;> simp [h0, hr, hl]
      show (match broadcastDim dL dR, broadcastRev l r with
        | some d, some rest => some (d :: rest)
        | _, _ => none) = _
      rw [hdim, ih r htail]
      rw [List.length_cons, List.length_cons, Nat.succ_max_succ,
        List.range_succ_eq_map, List.map_cons, List.map_map]
      have hcomp : (specDimRev (dL :: l) (dR :: r) ∘ Nat.succ) = specDimRev l r := by
        funext k
        unfold specDimRev
        simp [Function.comp, List.getD_cons_succ]
      rw [hcomp]

theorem broadcastRev_of_incompat (l r : List Nat) (h : ¬ compatRev l r) :
    broadcastRev l r = none := by
  induction l generalizing r with
  | nil =>
    exact absurd (fun k => Or.inl (by simp [List.getD])) h
  | cons dL l ih =>
    cases r with
    | nil =>
      exact absurd (fun k => Or.inr (Or.inl (by simp [List.getD]))) h
    | cons dR r =>
      show (match broadcastDim dL dR, broadcastRev l r with
        | some d, some rest => some (d :: rest)
        | _, _ => none) = none
      by_cases h0 : dL = 1 ∨ dR = 1 ∨ dL = dR
      · have htail : ¬ compatRev l r := by
          intro hc
          apply h
          intro k
          cases k with
          | zero => simpa [List.getD_cons_zero] using h0
          | succ k => simpa [List.getD_cons_succ] using hc k
        rw [ih r htail]
        cases broadcastDim dL dR <;> rfl
      · have hdim : broadcastDim dL dR = none := by
          unfold broadcastDim
          push_neg at h0
          simp [h0.1, h0.2.1, h0.2.2]
        rw [hdim]

theorem specCompatible_iff (s1 s2 : List Nat) :
    specCompatible s1 s2 = true ↔ compatRev s1.reverse s2.reverse := by
  unfold specCompatible compatRev
  rw [List.all_eq_true]
  constructor
  · intro h k
    by_cases hk : k < max s1.length s2.length
    · have hh := h k (List.mem_range.mpr hk)
      simp only [alignedDim, Bool.or_eq_true, beq_iff_eq] at hh
      tauto
    · left
      apply List.getD_eq_default
      rw [List.length_reverse]
      omega
  · intro h k hk
    have hh := h k
    simp only [alignedDim, Bool.or_eq_true, beq_iff_eq]
    tauto

theorem resolve_ok_refs (T : ExpressionNode) (b : String → Option (List Nat × Dtype))
    (r : List Nat × Dtype) (h : resolveShape b T = Except.ok r) :
    ∀ n ∈ refNames T, (b n).isSome := by
  induction T generalizing r with
  | Literal v => simp [refNames]
  | OperandRef m =>
    intro n hn
    simp only [refNames, List.mem_singleton] at hn
    subst hn
    cases hb : b n with
    | none => rw [resolveShape, hb] at h; exact absurd h (by simp)
    | some sd => simp
  | UnaryOp op c ih =>
    intro n hn
    simp only [refNames] at hn
    exact ih r (by rw [resolveShape] at h; exact h) n hn
  | BinaryOp op l r2 ihl ihr =>
    intro n hn
    rw [resolveShape] at h
    cases hl : resolveShape b l with
    | error e => rw [hl] at h; simp [Bind.bind, Except.bind] at h
    | ok sl =>
      rw [hl] at h
      cases hr : resolveShape b r2 with
      | error e => rw [hr] at h; simp [Bind.bind, Except.bind] at h
      | ok sr =>
        simp only [refNames, List.mem_append] at hn
        cases hn with
        | inl hn => exact ihl sl hl n hn
        | inr hn => exact ihr sr hr n hn
  | ReduceOp op c ax ih =>
    intro n hn
    simp only [refNames] at hn
    rw [resolveShape] at h
    cases hc : resolveShape b c with
    | error e => rw [hc] at h; simp [Bind.bind, Except.bind] at h
    | ok sc => exact ih sc hc n hn
  | Call f a ih =>
    intro n hn
    simp only [refNames] at hn
    rw [resolveShape] at h
    by_cases hf : f ∈ knownFuns
    · rw [if_pos hf] at h
      exact ih r h n hn
    · rw [if_neg hf] at h
      exact absurd h (by simp)

theorem eval_ok_refs (T : ExpressionNode) (b : String → Option NDArray)
    (A : NDArray) (h : evalNode b T = Except.ok A) :
    ∀ n ∈ refNames T, (b n).isSome := by
  induction T generalizing A with
  | Literal v => simp [refNames]
  | OperandRef m =>
    intro n hn
    simp only [refNames, List.mem_singleton] at hn
    subst hn
    cases hb : b n with
    | none => rw [evalNode, hb] at h; exact absurd h (by simp)
    | some B => simp
  | UnaryOp op c ih =>
    intro n hn
    simp only [refNames] at hn
    rw [evalNode] at h
    cases hc : evalNode b c with
    | error e => rw [hc] at h; simp [Bind.bind, Except.bind] at h
    | ok B => exact ih B hc n hn
  | BinaryOp op l r2 ihl ihr =>
    intro n hn
    rw [evalNode] at h
    cases hl : evalNode b l with
    | error e => rw [hl] at h; simp [Bind.bind, Except.bind] at h
    | ok B1 =>
      rw [hl] at h
      cases hr : evalNode b r2 with
      | error e => rw [hr] at h; simp [Bind.bind, Except.bind] at h
      | ok B2 =>
        simp only [refNames, List.mem_append] at hn
        cases hn with
        | inl hn => exact ihl B1 hl n hn
        | inr hn => exact ihr B2 hr n hn
  | ReduceOp op c ax ih =>
    intro n hn
    simp only [refNames] at hn
    cases op
    rw [evalNode] at h
    cases hc : evalNode b c with
    | error e => rw [hc] at h; simp [Bind.bind, Except.bind] at h
    | ok B => exact ih B hc n hn
  | Call f a ih =>
    intro n hn
    simp only [refNames] at hn
    rw [evalNode] at h
    by_cases hf : f ∈ knownFuns
    · rw [if_pos hf] at h
      cases hc : evalNode b a with
      | error e => rw [hc] at h; simp [Bind.bind, Except.bind] at h
      | ok B => exact ih B hc n hn
    · rw [if_neg hf] at h
      exact absurd h (by simp)

theorem metaB_eq_of_metaOf_eq (L : LazyExpression) (st1 st2 : Storage)
    (h : metaOf st1 = metaOf st2) : L.metaB st1 = L.metaB st2 := by
  funext n
  unfold LazyExpression.metaB
  rw [h]

theorem lookup_map_replace {α : Type} (l : List (String × α)) (k : String) (v : α) :
    (l.lookup k).isSome →
      ((l.map fun p => if p.1 = k then (k, v) else p).lookup k) = some v := by
  induction l with
  | nil => simp [List.lookup]
  | cons p t ih =>
    intro h
    by_cases hp : p.1 = k
    · simp only [List.map_cons, if_pos hp]
      rw [List.lookup]
      simp
    · have hne : (k == p.1) = false := by
        simp [beq_iff_eq]
        exact fun he => hp he.symm
      simp only [List.map_cons, if_neg hp]
      rw [List.lookup, hne] at h
      rw [List.lookup, hne]
      exact ih h

theorem lookup_map_replace_ne {α : Type} (l : List (String × α)) (k k2 : String) (v : α)
    (hne : k2 ≠ k) :
    ((l.map fun p => if p.1 = k then (k, v) else p).lookup k2) = l.lookup k2 := by
  induction l with
  | nil => simp
  | cons p t ih =>
    by_cases hp : p.1 = k
    · have h1 : (k2 == k) = false := by simp [beq_iff_eq, hne]
      have h2 : (k2 == p.1) = false := by
        simp [beq_iff_eq]
        intro he
        exact hne (he.trans hp)
      simp only [List.map_cons, if_pos hp]
      rw [List.lookup, h1, List.lookup, h2]
      exact ih
    · simp only [List.map_cons, if_neg hp]
      rw [List.lookup, List.lookup]
      cases hk2 : (k2 == p.1) with
      | true => rfl
      | false => exact ih

theorem lookup_append_single {α : Type} (l : List (String × α)) (k : String) (v : α)
    (h : l.lookup k = none) : ((l ++ [(k, v)]).lookup k) = some v := by
  induction l with
  | nil => simp [List.lookup]
  | cons p t ih =>
    rw [List.cons_append, List.lookup]
    rw [List.lookup] at h
    cases hk : (k == p.1) with
    | true => rw [hk] at h; exact absurd h (by simp)
    | false => rw [hk] at h; exact ih h

theorem lookup_append_single_ne {α : Type} (l : List (String × α)) (k k2 : String) (v : α)
    (hne : k2 ≠ k) : ((l ++ [(k, v)]).lookup k2) = l.lookup k2 := by
  induction l with
  | nil =>
    have h1 : (k2 == k) = false := by simp [beq_iff_eq]; exact hne
    rw [List.nil_append, List.lookup]
    simp [h1]
    exact hne
  | cons p t ih =>
    rw [List.cons_append, List.lookup, List.lookup]
    cases hk : (k2 == p.1) with
    | true => rfl
    | false => exact ih

theorem lookup_filter_out {α : Type} (l : List (String × α)) (k : String) :
    ((l.filter fun p => !(p.1 == k)).lookup k) = none := by
  induction l with
  | nil => rfl
  | cons p t ih =>
    by_cases hp : p.1 = k
    · simp only [List.filter_cons, hp, beq_self_eq_true, Bool.not_true, if_neg]
      simpa using ih
    · have h1 : (!(p.1 == k)) = true := by simp [beq_iff_eq, hp]
      have h2 : (k == p.1) = false := by
        simp [beq_iff_eq]
        exact fun he => hp he.symm
      rw [List.filter_cons, if_pos h1, List.lookup, h2]
      exact ih

theorem lookup_filter_out_ne {α : Type} (l : List (String × α)) (k k2 : String)
    (hne : k2 ≠ k) :
    ((l.filter fun p => !(p.1 == k)).lookup k2) = l.lookup k2 := by
  induction l with
  | nil => rfl
  | cons p t ih =>
    by_cases hp : p.1 = k
    · have h2 : (k2 == p.1) = false := by
        simp [beq_iff_eq]
        intro he
        exact hne (he.trans hp)
      simp only [List.filter_cons, hp, beq_self_eq_true, Bool.not_true, if_neg]
      rw [List.lookup, h2]
      simpa using ih
    · have h1 : (!(p.1 == k)) = true := by simp [beq_iff_eq, hp]
      rw [List.filter_cons, if_pos h1, List.lookup, List.lookup]
      cases hk : (k2 == p.1) with
      | true => rfl
      | false => exact ih

theorem broadcastShapes_of_compat (s1 s2 : List Nat) (h : specCompatible s1 s2 = true) :
    broadcastShapes s1 s2 = some (specShape s1 s2) := by
  unfold broadcastShapes specShape
  rw [broadcastRev_of_compat _ _ ((specCompatible_iff s1 s2).mp h)]
  rw [List.length_reverse, List.length_reverse]
  rfl

theorem broadcastShapes_of_incompat (s1 s2 : List Nat) (h : specCompatible s1 s2 = false) :
    broadcastShapes s1 s2 = none := by
  unfold broadcastShapes
  rw [broadcastRev_of_incompat]
  · rfl
  · intro hc
    exact absurd ((specCompatible_iff s1 s2).mpr hc) (by simp [h])

/-- C1. For every pair of operand shapes, `resolveShape` on a
`BinaryOp` combines them by aligning the shapes from the trailing
dimension: each aligned pair `(dL, dR)` yields `dL` if `dR == 1`, `dR`
if `dL == 1`, `dL` if `dL == dR`; dimensions present in only one
operand are treated as size 1 and adopt the other operand's size; and
for any aligned pair of unequal dimensions with neither equal to 1,
`resolveShape` fails with `ShapeMismatchError`.  (`specCompatible` and
`specShape` state the rule index-wise from the trailing end, exactly as
the spec words it.) -/
theorem claim1_broadcast_rule (op : BOp) (s1 s2 : List Nat) (d1 d2 : Dtype) :
    (specCompatible s1 s2 = true →
      resolveShape (twoOperands s1 d1 s2 d2)
        (ExpressionNode.BinaryOp op (ExpressionNode.OperandRef "L")
          (ExpressionNode.OperandRef "R"))
        = Except.ok (specShape s1 s2, promote d1 d2))
    ∧ (specCompatible s1 s2 = false →
      resolveShape (twoOperands s1 d1 s2 d2)
        (ExpressionNode.BinaryOp op (ExpressionNode.OperandRef "L")
          (ExpressionNode.OperandRef "R"))
        = Except.error EvalError.ShapeMismatchError) := by
  have hnode : resolveShape (twoOperands s1 d1 s2 d2)
      (ExpressionNode.BinaryOp op (ExpressionNode.OperandRef "L")
        (ExpressionNode.OperandRef "R"))
      = match broadcastShapes s1 s2 with
        | some s => Except.ok (s, promote d1 d2)
        | none => Except.error EvalError.ShapeMismatchError := rfl
  constructor
  · intro hc
    rw [hnode, broadcastShapes_of_compat s1 s2 hc]
  · intro hc
    rw [hnode, broadcastShapes_of_incompat s1 s2 hc]

/-- Witness for C1: the tutorial's shapes (200, 400) and (400,)
broadcast to (200, 400); the incompatible pair (200, 400) and (300,)
fails with `ShapeMismatchError`. -/
theorem claim1_broadcast_rule_witness :
    resolveShape (twoOperands [200, 400] Dtype.int64 [400] Dtype.int64)
      (ExpressionNode.BinaryOp BOp.mul (ExpressionNode.OperandRef "L")
        (ExpressionNode.OperandRef "R"))
      = Except.ok (specShape [200, 400] [400], promote Dtype.int64 Dtype.int64)
    ∧ resolveShape (twoOperands [200, 400] Dtype.int64 [300] Dtype.int64)
      (ExpressionNode.BinaryOp BOp.mul (ExpressionNode.OperandRef "L")
        (ExpressionNode.OperandRef "R"))
      = Except.error EvalError.ShapeMismatchError :=
  ⟨(claim1_broadcast_rule BOp.mul [200, 400] [400] Dtype.int64 Dtype.int64).1 (by decide),
   (claim1_broadcast_rule BOp.mul [200, 400] [300] Dtype.int64 Dtype.int64).2 (by decide)⟩

/-- C2. A reduction built by applying operators directly on
handles/expressions is evaluated immediately and bound into the tree as
a concrete `Literal`; the same reduction written in a string passed to
the expression constructor produces a `ReduceOp` node, unevaluated at
construction (construction is pure parsing), and evaluated only when
`compute()` runs the evaluator. -/
theorem claim2_eager_vs_deferred :
    (∀ (L : LazyExpression) (st : Storage) (L2 : LazyExpression),
      L.sumEager st = Except.ok L2 →
      ∃ A, L.compute st = Except.ok A ∧ L2.tree = ExpressionNode.Literal (sumAll A))
    ∧ (∀ (s : String) (ops : List (String × String)),
      lazyexpr s ops = (parseString s).map fun t => ⟨t, ops⟩)
    ∧ parseString "a.sum() + b * c" = some tutorialTree
    ∧ (∀ (b : String → Option NDArray) (c : ExpressionNode) (A : NDArray),
      evalNode b c = Except.ok A →
      evalNode b (ExpressionNode.ReduceOp ROp.sum c none)
        = Except.ok ⟨[], A.dtype, fun _ => sumAll A⟩) := by
  refine ⟨?_, fun s ops => rfl, by decide, ?_⟩
  · intro L st L2 h
    unfold LazyExpression.sumEager at h
    cases hc : L.compute st with
    | error e => rw [hc] at h; simp [Bind.bind, Except.bind] at h
    | ok A =>
      rw [hc] at h
      simp only [Bind.bind, Except.bind] at h
      injection h with h
      exact ⟨A, rfl, by rw [← h]⟩
  · intro b c A h
    rw [evalNode, h]
    rfl

/-- Witness for C2: `sum()` on the bare operand `a` via the
operator path immediately produces a `Literal` tree; evaluating the
deferred `ReduceOp ROp.sum` node over the same operand at compute time
produces the scalar sum. -/
theorem claim2_eager_vs_deferred_witness :
    (∃ A, (opRef "a" "a.b2nd").compute st0 = Except.ok A
      ∧ (LazyExpression.mk (ExpressionNode.Literal (sumAll aArr)) [("a", "a.b2nd")]).tree
          = ExpressionNode.Literal (sumAll A))
    ∧ evalNode (exprL.dataB st0)
        (ExpressionNode.ReduceOp ROp.sum (ExpressionNode.OperandRef "a") none)
        = Except.ok ⟨[], aArr.dtype, fun _ => sumAll aArr⟩ :=
  ⟨claim2_eager_vs_deferred.1 (opRef "a" "a.b2nd") st0
      ⟨ExpressionNode.Literal (sumAll aArr), [("a", "a.b2nd")]⟩ rfl,
   claim2_eager_vs_deferred.2.2.2 (exprL.dataB st0) (ExpressionNode.OperandRef "a") aArr rfl⟩

/-- C3. `shape()` and `dtype()` are recomputed on every call against
the current operand bindings: the same (unmodified, not re-saved)
expression value reports shape (200, 400) before the operand resize and
(300, 400) after it, and after reopening from its path the computed
result reflects the newly written values (60000006 = 60000000 + 2·3 at
position (0,0), the notebook's documented output). -/
theorem claim3_shape_recomputed :
    lazyexpr "a.sum() + b * c" ops0 = some exprL
    ∧ exprL.shape st0 = Except.ok [200, 400]
    ∧ openExpr "my_expr.b2nd" stMut = some exprL
    ∧ exprL.shape stMut = Except.ok [300, 400]
    ∧ exprL.dtype stMut = Except.ok Dtype.int64
    ∧ ∃ A, exprL.compute stMut = Except.ok A ∧ A.shape = [300, 400]
        ∧ A.data [0, 0] = 60000006 := by
  refine ⟨by decide, by rfl, by decide, by rfl, by rfl, ?_⟩
  have hc : exprL.compute stMut =
      Except.ok ⟨[300, 400], Dtype.int64,
        fun idx => sumAll aArr2
          + bArr2.data (bcastIdx bArr2.shape (bcastIdx [300, 400] idx))
            * cArr.data (bcastIdx cArr.shape (bcastIdx [300, 400] idx))⟩ := rfl
  refine ⟨_, hc, rfl, ?_⟩
  show sumAll aArr2
      + bArr2.data (bcastIdx bArr2.shape (bcastIdx [300, 400] [0, 0]))
        * cArr.data (bcastIdx cArr.shape (bcastIdx [300, 400] [0, 0])) = 60000006
  have hb : bArr2.data (bcastIdx bArr2.shape (bcastIdx [300, 400] [0, 0])) = 2 := rfl
  have hcc : cArr.data (bcastIdx cArr.shape (bcastIdx [300, 400] [0, 0])) = 3 := rfl
  rw [hb, hcc, sumAll_aArr2]
  norm_num

/-- C4. For `a = full((200,300,400), 1)`, `b = full((200,400), 2)`,
`c = full(400, 3)`, computing the string expression `a.sum() + b * c`
yields an array of shape (200, 400) whose value at every valid output
position equals 200·300·400·1 + 2·3 = 24000006. -/
theorem claim4_concrete_scenario (i j : Nat) (_hi : i < 200) (_hj : j < 400) :
    ∃ L A, lazyexpr "a.sum() + b * c" ops0 = some L
      ∧ L.compute st0 = Except.ok A
      ∧ A.shape = [200, 400]
      ∧ A.data [i, j] = 24000006 := by
  have hc : exprL.compute st0 =
      Except.ok ⟨[200, 400], Dtype.int64,
        fun idx => sumAll aArr
          + bArr.data (bcastIdx bArr.shape (bcastIdx [200, 400] idx))
            * cArr.data (bcastIdx cArr.shape (bcastIdx [200, 400] idx))⟩ := rfl
  refine ⟨exprL, _, by decide, hc, rfl, ?_⟩
  show sumAll aArr + 2 * 3 = 24000006
  have ha : sumAll aArr = 24000000 := by
    rw [show aArr = full [200, 300, 400] 1 from rfl, sumAll_full]
    norm_num
  rw [ha]
  norm_num

/-- Witness for C4: position (0, 0) of the computed result holds
24000006. -/
theorem claim4_concrete_scenario_witness :
    ∃ L A, lazyexpr "a.sum() + b * c" ops0 = some L
      ∧ L.compute st0 = Except.ok A
      ∧ A.shape = [200, 400]
      ∧ A.data [0, 0] = 24000006 :=
  claim4_concrete_scenario 0 0 (by decide) (by decide)

/-- Counterexample for C5: the claim asserts
`sum(a) = 200·300·400·1 + 100·300·400·3 = 60000006` after the resize
and rewrite, but the exact value of that expression — and of the
modelled sum — is 60000000, not 60000006. -/
theorem claim5_counterexample :
    sumAll aArr2 = 60000000
    ∧ (200 * 300 * 400 * 1 + 100 * 300 * 400 * 3 : Int) = 60000000
    ∧ ¬ (sumAll aArr2 = 60000006) := by
  refine ⟨sumAll_aArr2, by norm_num, ?_⟩
  rw [sumAll_aArr2]
  norm_num

/-- C5 as amended: after the resize and the writes, recomputing the
reopened expression yields, for every position in rows 200:300, the
value `sum(a) + 5·3 = 60000015`, where
`sum(a) = 200·300·400·1 + 100·300·400·3 = 60000000`; the documented
60000006 is the value in rows 0:200, where `b` is still 2
(`sum(a) + 2·3`). -/
theorem claim5_amended_rows (i j : Nat) (h2 : 200 ≤ i) (h3 : i < 300) (_hj : j < 400) :
    ∃ L2 A, openExpr "my_expr.b2nd" stMut = some L2
      ∧ L2.compute stMut = Except.ok A
      ∧ A.data [i, j] = sumAll aArr2 + 5 * 3
      ∧ sumAll aArr2 = 60000000
      ∧ A.data [i, j] = 60000015 := by
  have hc : exprL.compute stMut =
      Except.ok ⟨[300, 400], Dtype.int64,
        fun idx => sumAll aArr2
          + bArr2.data (bcastIdx bArr2.shape (bcastIdx [300, 400] idx))
            * cArr.data (bcastIdx cArr.shape (bcastIdx [300, 400] idx))⟩ := rfl
  refine ⟨exprL, _, by decide, hc, ?_, sumAll_aArr2, ?_⟩
  · show sumAll aArr2
        + bArr2.data (bcastIdx bArr2.shape (bcastIdx [300, 400] [i, j]))
          * cArr.data (bcastIdx cArr.shape (bcastIdx [300, 400] [i, j]))
        = sumAll aArr2 + 5 * 3
    have hbi : bcastIdx bArr2.shape (bcastIdx [300, 400] [i, j]) = [i, j] := rfl
    have hci : bcastIdx cArr.shape (bcastIdx [300, 400] [i, j]) = [j] := rfl
    rw [hbi, hci]
    have hb : bArr2.data [i, j] = 5 := by simp [bArr2, setRows, h2, h3]
    have hcc : cArr.data [j] = 3 := rfl
    rw [hb, hcc]
  · show sumAll aArr2
        + bArr2.data (bcastIdx bArr2.shape (bcastIdx [300, 400] [i, j]))
          * cArr.data (bcastIdx cArr.shape (bcastIdx [300, 400] [i, j]))
        = 60000015
    have hbi : bcastIdx bArr2.shape (bcastIdx [300, 400] [i, j]) = [i, j] := rfl
    have hci : bcastIdx cArr.shape (bcastIdx [300, 400] [i, j]) = [j] := rfl
    rw [hbi, hci]
    have hb : bArr2.data [i, j] = 5 := by simp [bArr2, setRows, h2, h3]
    have hcc : cArr.data [j] = 3 := rfl
    rw [hb, hcc, sumAll_aArr2]
    norm_num

/-- Witness for the amended C5: position (250, 0) lies in rows 200:300
and holds 60000015. -/
theorem claim5_amended_rows_witness :
    ∃ L2 A, openExpr "my_expr.b2nd" stMut = some L2
      ∧ L2.compute stMut = Except.ok A
      ∧ A.data [250, 0] = sumAll aArr2 + 5 * 3
      ∧ sumAll aArr2 = 60000000
      ∧ A.data [250, 0] = 60000015 :=
  claim5_amended_rows 250 0 (by decide) (by decide) (by decide)

/-- C6. `resolveShape` — and hence every `shape()`/`dtype()` query on a
lazy expression — is a pure function of current operand metadata and
performs no chunk-data access: two storages whose array metadata agree
(while their chunk data differ arbitrarily) give identical answers to
every shape/dtype query, the extensional content of "an instrumented
handle counts 0 chunk reads".  (`resolveShape` consumes only a
metadata binding, so no data is even reachable from a query.) -/
theorem claim6_metadata_only (L : LazyExpression) (st1 st2 : Storage)
    (h : metaOf st1 = metaOf st2) :
    L.shape st1 = L.shape st2 ∧ L.dtype st1 = L.dtype st2 := by
  have hm := metaB_eq_of_metaOf_eq L st1 st2 h
  constructor
  · unfold LazyExpression.shape
    rw [hm]
  · unfold LazyExpression.dtype
    rw [hm]

/-- Witness for C6: `st0Alt` stores different values (7, 8, 9 instead
of 1, 2, 3) with the same shapes, and the tutorial expression's shape
and dtype queries cannot tell the two storages apart. -/
theorem claim6_metadata_only_witness :
    exprL.shape st0 = exprL.shape st0Alt ∧ exprL.dtype st0 = exprL.dtype st0Alt :=
  claim6_metadata_only exprL st0 st0Alt (by decide)

/-- C7. `save()` followed by `open()` on the saved path, with the bound
operands unchanged in between, yields an expression whose `compute()`
result is identical to the original's — here literally the same value,
hence bit-for-bit equal however it is serialized. -/
theorem claim7_roundtrip (L : LazyExpression) (p : String) (st : Storage)
    (h : ∀ pr ∈ L.operands, (st.arrays.lookup pr.2).isSome = true) :
    openExpr p (save L p st) = some L
    ∧ (∀ L2, openExpr p (save L p st) = some L2 →
        L2.compute (save L p st) = L.compute (save L p st)
        ∧ L2.shape (save L p st) = L.shape (save L p st)) := by
  have hexprs : (save L p st).exprs
      = (p, PersistedExpression.mk L.tree L.operands)
        :: (st.exprs.filter fun pe => !(pe.1 == p)) := rfl
  have harr : (save L p st).arrays = st.arrays := rfl
  have hall : ((PersistedExpression.mk L.tree L.operands).refs.all
      fun r => ((st.arrays.lookup r.2)).isSome) = true := by
    rw [List.all_eq_true]
    intro r hr
    exact h r hr
  have hopen : openExpr p (save L p st) = some L := by
    unfold openExpr
    simp only [hexprs, harr]
    rw [List.lookup]
    simp only [beq_self_eq_true, bind, Option.bind, hall, if_true]
  refine ⟨hopen, fun L2 h2 => ?_⟩
  rw [hopen] at h2
  injection h2 with h2
  rw [h2]
  exact ⟨rfl, rfl⟩

/-- Witness for C7: the tutorial expression saved at `my_expr.b2nd`
over `st0` reopens to the same expression with identical compute and
shape. -/
theorem claim7_roundtrip_witness :
    openExpr "my_expr.b2nd" (save exprL "my_expr.b2nd" st0) = some exprL
    ∧ (∀ L2, openExpr "my_expr.b2nd" (save exprL "my_expr.b2nd" st0) = some L2 →
        L2.compute (save exprL "my_expr.b2nd" st0)
          = exprL.compute (save exprL "my_expr.b2nd" st0)
        ∧ L2.shape (save exprL "my_expr.b2nd" st0)
          = exprL.shape (save exprL "my_expr.b2nd" st0)) :=
  claim7_roundtrip exprL "my_expr.b2nd" st0 (by decide)

theorem lookup_map_pair {α β : Type} (l : List (String × α)) (f : α → β) (p : String) :
    ((l.map fun pa => (pa.1, f pa.2)).lookup p) = (l.lookup p).map f := by
  induction l with
  | nil => rfl
  | cons a t ih =>
    rw [List.map_cons, List.lookup, List.lookup]
    cases hk : (p == a.1) with
    | true => rfl
    | false => exact ih

theorem metaB_eq_dataB_map (L : LazyExpression) (st : Storage) (n : String) :
    L.metaB st n = (L.dataB st n).map fun A => (A.shape, A.dtype) := by
  unfold LazyExpression.metaB LazyExpression.dataB metaOf
  cases L.operands.lookup n with
  | none => rfl
  | some p =>
    simp only [Option.some_bind]
    exact lookup_map_pair st.arrays (fun A => (A.shape, A.dtype)) p

/-- C8. `ShapeMismatchError`, `UnknownOperandError` and
`UnknownFunctionError` surface when shape/dtype is queried (or at
compute), never eagerly at tree-construction time: for every
syntactically valid expression string, construction succeeds with any
(even empty) operand mapping, serialization always succeeds, and a tree
containing an unbound `OperandRef` only errors once `shape`, `dtype` or
`compute` is invoked (shown exactly as `UnknownOperandError` for a bare
unbound reference). -/
theorem claim8_errors_at_query_time :
    (∀ (s : String) (T : ExpressionNode) (ops : List (String × String)),
      parseString s = some T → lazyexpr s ops = some ⟨T, ops⟩)
    ∧ (∀ (L : LazyExpression) (p : String) (st : Storage),
      (save L p st).exprs.lookup p = some ⟨L.tree, L.operands⟩)
    ∧ (∀ (L : LazyExpression) (st : Storage) (n : String),
      n ∈ refNames L.tree → L.metaB st n = none →
        (∃ e, L.shape st = Except.error e) ∧ (∃ e, L.dtype st = Except.error e)
        ∧ (∃ e, L.compute st = Except.error e))
    ∧ (∀ (n : String) (ops : List (String × String)) (st : Storage),
      (⟨ExpressionNode.OperandRef n, ops⟩ : LazyExpression).metaB st n = none →
      (⟨ExpressionNode.OperandRef n, ops⟩ : LazyExpression).shape st
        = Except.error (EvalError.UnknownOperandError n)) := by
  refine ⟨?_, ?_, ?_, ?_⟩
  · intro s T ops hp
    unfold lazyexpr
    rw [hp]
    rfl
  · intro L p st
    show List.lookup p ((p, PersistedExpression.mk L.tree L.operands) :: _) = _
    rw [List.lookup]
    simp
  · intro L st n hn hunb
    have hd : L.dataB st n = none := by
      have hm := metaB_eq_dataB_map L st n
      rw [hunb] at hm
      exact (Option.map_eq_none'.mp hm.symm)
    refine ⟨?_, ?_, ?_⟩
    · cases hr : resolveShape (L.metaB st) L.tree with
      | error e => exact ⟨e, by unfold LazyExpression.shape; rw [hr]; rfl⟩
      | ok r =>
        have := resolve_ok_refs L.tree (L.metaB st) r hr n hn
        rw [hunb] at this
        exact absurd this (by simp)
    · cases hr : resolveShape (L.metaB st) L.tree with
      | error e => exact ⟨e, by unfold LazyExpression.dtype; rw [hr]; rfl⟩
      | ok r =>
        have := resolve_ok_refs L.tree (L.metaB st) r hr n hn
        rw [hunb] at this
        exact absurd this (by simp)
    · cases he : evalNode (L.dataB st) L.tree with
      | error e => exact ⟨e, he⟩
      | ok A =>
        have := eval_ok_refs L.tree (L.dataB st) A he n hn
        rw [hd] at this
        exact absurd this (by simp)
  · intro n ops st hunb
    unfold LazyExpression.shape
    rw [resolveShape]
    rw [show (⟨ExpressionNode.OperandRef n, ops⟩ : LazyExpression).metaB st n = none from hunb]
    rfl

/-- Witness for C8: the string `z` with an empty operand mapping
constructs and serializes fine; its shape query fails with
`UnknownOperandError "z"`, and its compute also fails. -/
theorem claim8_errors_at_query_time_witness :
    lazyexpr "z" [] = some ⟨ExpressionNode.OperandRef "z", []⟩
    ∧ (save exprL "my_expr.b2nd" st0).exprs.lookup "my_expr.b2nd"
        = some ⟨exprL.tree, exprL.operands⟩
    ∧ ((∃ e, (⟨ExpressionNode.OperandRef "z", []⟩ : LazyExpression).shape st0
          = Except.error e)
      ∧ (∃ e, (⟨ExpressionNode.OperandRef "z", []⟩ : LazyExpression).dtype st0
          = Except.error e)
      ∧ (∃ e, (⟨ExpressionNode.OperandRef "z", []⟩ : LazyExpression).compute st0
          = Except.error e))
    ∧ (⟨ExpressionNode.OperandRef "z", []⟩ : LazyExpression).shape st0
        = Except.error (EvalError.UnknownOperandError "z") :=
  ⟨claim8_errors_at_query_time.1 "z" (ExpressionNode.OperandRef "z") [] (by decide),
   claim8_errors_at_query_time.2.1 exprL "my_expr.b2nd" st0,
   claim8_errors_at_query_time.2.2.1 ⟨ExpressionNode.OperandRef "z", []⟩ st0 "z"
     (by decide) rfl,
   claim8_errors_at_query_time.2.2.2 "z" [] st0 rfl⟩

/-- Counterexample for C9: the claim says no `LazyExpression` with a
dangling `OperandRef` can exist after construction succeeds, but
constructing from the string `z` with an empty operand mapping succeeds
and yields exactly such an expression. -/
theorem claim9_counterexample :
    ∃ (s : String) (ops : List (String × String)) (L : LazyExpression) (n : String),
      lazyexpr s ops = some L ∧ n ∈ refNames L.tree ∧ L.operands.lookup n = none :=
  ⟨"z", [], ⟨ExpressionNode.OperandRef "z", []⟩, "z", by decide, by decide, rfl⟩

/-- C9 as amended: an unresolved operand name is *not* an error at
construction time — construction succeeds with dangling references and
the name surfaces as an error at shape/dtype/compute query time —
while `open()` does fail when a *recorded storage path* of a persisted
expression cannot be resolved to an existing array. -/
theorem claim9_amended_query_time :
    (∀ (s : String) (T : ExpressionNode) (ops : List (String × String)),
      parseString s = some T → lazyexpr s ops = some ⟨T, ops⟩)
    ∧ (∀ (L : LazyExpression) (st : Storage) (n : String),
        n ∈ refNames L.tree → L.metaB st n = none →
        ∃ e, L.shape st = Except.error e)
    ∧ (∀ (p : String) (st : Storage) (pe : PersistedExpression),
        st.exprs.lookup p = some pe →
        (∃ pr ∈ pe.refs, st.arrays.lookup pr.2 = none) →
        openExpr p st = none) := by
  refine ⟨?_, ?_, ?_⟩
  · intro s T ops hp
    unfold lazyexpr
    rw [hp]
    rfl
  · intro L st n hn hunb
    cases hr : resolveShape (L.metaB st) L.tree with
    | error e => exact ⟨e, by unfold LazyExpression.shape; rw [hr]; rfl⟩
    | ok r =>
      have := resolve_ok_refs L.tree (L.metaB st) r hr n hn
      rw [hunb] at this
      exact absurd this (by simp)
  · intro p st pe hp hmiss
    have hall : (pe.refs.all fun r => (st.arrays.lookup r.2).isSome) = false := by
      cases hq : pe.refs.all fun r => (st.arrays.lookup r.2).isSome with
      | false => rfl
      | true =>
        obtain ⟨pr, hpr, hnone⟩ := hmiss
        have := List.all_eq_true.mp hq pr hpr
        rw [hnone] at this
        exact absurd this (by simp)
    unfold openExpr
    rw [hp]
    simp only [bind, Option.bind, hall]
    rfl

/-- Witness for the amended C9: construction from the dangling string
`z` succeeds; its shape query errors; a persisted expression whose
recorded path `gone.b2nd` is missing from storage fails to open. -/
theorem claim9_amended_query_time_witness :
    lazyexpr "z" [] = some ⟨ExpressionNode.OperandRef "z", []⟩
    ∧ (∃ e, (⟨ExpressionNode.OperandRef "z", []⟩ : LazyExpression).shape st0
        = Except.error e)
    ∧ openExpr "dangling"
        (Storage.mk st0.arrays
          [("dangling", PersistedExpression.mk (ExpressionNode.OperandRef "x")
            [("x", "gone.b2nd")])])
        = none :=
  ⟨claim9_amended_query_time.1 "z" (ExpressionNode.OperandRef "z") [] (by decide),
   claim9_amended_query_time.2.1 ⟨ExpressionNode.OperandRef "z", []⟩ st0 "z"
     (by decide) rfl,
   claim9_amended_query_time.2.2 "dangling"
     (Storage.mk st0.arrays
       [("dangling", PersistedExpression.mk (ExpressionNode.OperandRef "x")
         [("x", "gone.b2nd")])])
     (PersistedExpression.mk (ExpressionNode.OperandRef "x") [("x", "gone.b2nd")])
     (by decide)
     ⟨("x", "gone.b2nd"), by decide, rfl⟩⟩

/-- C10. The `vlmeta` accessor behaves as a MutableMapping over
variable-length metalayers: after `vlmeta[k] = v` the lookup of `k`
returns `v` (and other keys are untouched); after `del vlmeta[k]` the
key `k` is absent (and other keys untouched); and `getall()` returns
exactly the dictionary of all currently stored metalayers (its lookup
agrees with the accessor's on every key). -/
theorem claim10_vlmeta_mapping {α : Type} (m : VlMeta α) (k k2 : String) (v : α) :
    (m.set k v).get k = some v
    ∧ (k2 ≠ k → (m.set k v).get k2 = m.get k2)
    ∧ (m.del k).get k = none
    ∧ (k2 ≠ k → (m.del k).get k2 = m.get k2)
    ∧ (∀ k3, (m.getall).lookup k3 = m.get k3) := by
  refine ⟨?_, ?_, ?_, ?_, fun k3 => rfl⟩
  · unfold VlMeta.set VlMeta.get
    by_cases hs : (m.entries.lookup k).isSome
    · rw [if_pos hs]
      exact lookup_map_replace m.entries k v hs
    · rw [if_neg hs]
      exact lookup_append_single m.entries k v (Option.not_isSome_iff_eq_none.mp hs)
  · intro hne
    unfold VlMeta.set VlMeta.get
    by_cases hs : (m.entries.lookup k).isSome
    · rw [if_pos hs]
      exact lookup_map_replace_ne m.entries k k2 v hne
    · rw [if_neg hs]
      exact lookup_append_single_ne m.entries k k2 v hne
  · exact lookup_filter_out m.entries k
  · intro hne
    exact lookup_filter_out_ne m.entries k k2 hne

/-- Witness for C10: on a concrete store holding `x`, setting and
deleting `y` behaves like a dictionary and `getall` matches. -/
theorem claim10_vlmeta_mapping_witness :
    ((VlMeta.mk [("x", "1")]).set "y" "2").get "y" = some "2"
    ∧ ("x" ≠ "y" → ((VlMeta.mk [("x", "1")]).set "y" "2").get "x"
        = (VlMeta.mk [("x", "1")]).get "x")
    ∧ ((VlMeta.mk [("x", "1")]).del "y").get "y" = none
    ∧ ("x" ≠ "y" → ((VlMeta.mk [("x", "1")]).del "y").get "x"
        = (VlMeta.mk [("x", "1")]).get "x")
    ∧ (∀ k3, ((VlMeta.mk [("x", "1")]).getall).lookup k3
        = (VlMeta.mk [("x", "1")]).get k3) :=
  claim10_vlmeta_mapping (VlMeta.mk [("x", "1")]) "y" "x" "2"
